import Mathlib

/-!
Verification development for the transformer model stack in
scripts/models/transformers.py (driver-drowsiness video classifier).

Tensors are embedded as index functions with explicit dimension
arguments; equalities about them are stated pointwise at in-range
indices.  Where the claims depend on IEEE-style special values
(infinities and not-a-number, produced by masked softmax), scalars are
modelled by the type EFlt below: exact rationals extended with both
infinities and a NaN element, with propagation rules matching IEEE 754
(no rounding or overflow is modelled).  Where the claims are about
exact arithmetic only, scalars are plain rationals, and the sinusoidal
positional table is modelled over the reals.  Dropout layers are the
identity throughout: every claim is about evaluation mode.
-/

/-- Scalar model for floating-point values: exact rationals extended
with positive and negative infinity and a not-a-number element. -/
inductive EFlt where
  | val (q : ℚ)
  | posInf
  | negInf
  | nan
deriving DecidableEq, Repr

/-- True exactly on the NaN element, mirroring torch.isnan. -/
def EFlt.isNaN : EFlt → Bool
  | .nan => true
  | _ => false

/-- True exactly on finite values. -/
def EFlt.finite : EFlt → Bool
  | .val _ => true
  | _ => false

/-- Addition with IEEE-style propagation: NaN absorbs, opposite
infinities give NaN. -/
def EFlt.add : EFlt → EFlt → EFlt
  | .nan, _ => .nan
  | _, .nan => .nan
  | .val a, .val b => .val (a + b)
  | .val _, .posInf => .posInf
  | .posInf, .val _ => .posInf
  | .val _, .negInf => .negInf
  | .negInf, .val _ => .negInf
  | .posInf, .posInf => .posInf
  | .negInf, .negInf => .negInf
  | .posInf, .negInf => .nan
  | .negInf, .posInf => .nan

/-- Multiplication with IEEE-style propagation: NaN absorbs, zero
times an infinity is NaN. -/
def EFlt.mul : EFlt → EFlt → EFlt
  | .nan, _ => .nan
  | _, .nan => .nan
  | .val a, .val b => .val (a * b)
  | .val a, .posInf => if a = 0 then .nan else if 0 < a then .posInf else .negInf
  | .posInf, .val a => if a = 0 then .nan else if 0 < a then .posInf else .negInf
  | .val a, .negInf => if a = 0 then .nan else if 0 < a then .negInf else .posInf
  | .negInf, .val a => if a = 0 then .nan else if 0 < a then .negInf else .posInf
  | .posInf, .posInf => .posInf
  | .negInf, .negInf => .posInf
  | .posInf, .negInf => .negInf
  | .negInf, .posInf => .negInf

/-- Division with IEEE-style propagation: zero over zero is NaN,
nonzero over zero is a signed infinity, finite over infinity is zero,
infinity over infinity is NaN.  The sign of a zero denominator is not
modelled; division of an infinity by a finite value uses the
denominator's sign with zero treated as positive. -/
def EFlt.div : EFlt → EFlt → EFlt
  | .nan, _ => .nan
  | _, .nan => .nan
  | .val a, .val b =>
      if b = 0 then (if a = 0 then .nan else if 0 < a then .posInf else .negInf)
      else .val (a / b)
  | .val _, .posInf => .val 0
  | .val _, .negInf => .val 0
  | .posInf, .val b => if 0 ≤ b then .posInf else .negInf
  | .negInf, .val b => if 0 ≤ b then .negInf else .posInf
  | .posInf, .posInf => .nan
  | .posInf, .negInf => .nan
  | .negInf, .posInf => .nan
  | .negInf, .negInf => .nan

instance : Add EFlt := ⟨EFlt.add⟩
instance : Mul EFlt := ⟨EFlt.mul⟩

/-- Sum of the first n values of f, used to model tensor reductions
and matrix products.  The empty sum is (the float) zero. -/
def efSum : ℕ → (ℕ → EFlt) → EFlt
  | 0, _ => .val 0
  | n + 1, f => EFlt.add (efSum n f) (f n)

/-- Exponential lifted to EFlt: the finite case is delegated to an
abstract rational approximation mexp (the framework's float exp is not
modelled bit-exactly), and the special values follow IEEE exp. -/
def efExp (mexp : ℚ → ℚ) : EFlt → EFlt
  | .val q => .val (mexp q)
  | .posInf => .posInf
  | .negInf => .val 0
  | .nan => .nan

/-- Configuration and learned parameters of MultiHeadSelfAttention
(transformers.py lines 157-225).  Weight matrices are finite reals,
modelled as total rational-valued index functions. -/
structure MHSACfg where
  embed_dim : ℕ
  num_heads : ℕ
  wQkv : ℕ → ℕ → ℚ
  bQkv : ℕ → ℚ
  wProj : ℕ → ℕ → ℚ
  bProj : ℕ → ℚ

/-- Per-head width embed_dim // num_heads (line 172). -/
def MHSACfg.headDim (M : MHSACfg) : ℕ := M.embed_dim / M.num_heads

/-- The fused qkv linear layer (line 197): row j of the 3*embed_dim
wide projection applied to token (n, s). -/
def mhsaQkv (M : MHSACfg) (x : ℕ → ℕ → ℕ → EFlt) (n s j : ℕ) : EFlt :=
  EFlt.add (.val (M.bQkv j))
    (efSum M.embed_dim (fun c => EFlt.mul (.val (M.wQkv j c)) (x n s c)))

/-- Query slice of the reshaped qkv tensor (lines 198-200): head h,
position s, in-head channel d. -/
def mhsaQ (M : MHSACfg) (x : ℕ → ℕ → ℕ → EFlt) (n h s d : ℕ) : EFlt :=
  mhsaQkv M x n s (h * M.headDim + d)

/-- Key slice of the reshaped qkv tensor. -/
def mhsaK (M : MHSACfg) (x : ℕ → ℕ → ℕ → EFlt) (n h s d : ℕ) : EFlt :=
  mhsaQkv M x n s (M.embed_dim + h * M.headDim + d)

/-- Value slice of the reshaped qkv tensor. -/
def mhsaV (M : MHSACfg) (x : ℕ → ℕ → ℕ → EFlt) (n h s d : ℕ) : EFlt :=
  mhsaQkv M x n s (2 * M.embed_dim + h * M.headDim + d)

/-- Raw attention scores QKᵗ/sqrt(head_dim) (line 203).  The float
value of math.sqrt(head_dim) is passed in as the rational sqrtHd. -/
def mhsaScores (M : MHSACfg) (x : ℕ → ℕ → ℕ → EFlt) (sqrtHd : ℚ)
    (n h i j : ℕ) : EFlt :=
  EFlt.div (efSum M.headDim (fun d => EFlt.mul (mhsaQ M x n h i d) (mhsaK M x n h j d)))
    (.val sqrtHd)

/-- Scores after masked_fill (lines 209-211): where the padding mask
is 0 at key position j of batch row n, the score becomes -infinity;
the mask broadcasts over heads and query positions. -/
def mhsaScoresMasked (M : MHSACfg) (x : ℕ → ℕ → ℕ → EFlt) (sqrtHd : ℚ)
    (mask : Option (ℕ → ℕ → ℚ)) (n h i j : ℕ) : EFlt :=
  match mask with
  | none => mhsaScores M x sqrtHd n h i j
  | some m => if m n j = 0 then .negInf else mhsaScores M x sqrtHd n h i j

/-- Softmax over the key axis (line 214): exp-normalisation of the
masked scores along j < S. -/
def mhsaAttn (M : MHSACfg) (x : ℕ → ℕ → ℕ → EFlt) (sqrtHd : ℚ)
    (mask : Option (ℕ → ℕ → ℚ)) (mexp : ℚ → ℚ) (S n h i j : ℕ) : EFlt :=
  EFlt.div (efExp mexp (mhsaScoresMasked M x sqrtHd mask n h i j))
    (efSum S (fun j2 => efExp mexp (mhsaScoresMasked M x sqrtHd mask n h i j2)))

/-- Attention weights after torch.nan_to_num (line 215): NaN entries
(for example a fully masked row) are replaced by zero.  The attention
dropout of line 216 is the identity in evaluation mode. -/
def mhsaAttnFixed (M : MHSACfg) (x : ℕ → ℕ → ℕ → EFlt) (sqrtHd : ℚ)
    (mask : Option (ℕ → ℕ → ℚ)) (mexp : ℚ → ℚ) (S n h i j : ℕ) : EFlt :=
  let a := mhsaAttn M x sqrtHd mask mexp S n h i j
  if a.isNaN then .val 0 else a

/-- Weighted sum of values and head merge (lines 219-220): channel c
belongs to head c / head_dim at in-head index c % head_dim. -/
def mhsaMerged (M : MHSACfg) (x : ℕ → ℕ → ℕ → EFlt) (sqrtHd : ℚ)
    (mask : Option (ℕ → ℕ → ℚ)) (mexp : ℚ → ℚ) (S n s c : ℕ) : EFlt :=
  efSum S (fun j =>
    EFlt.mul (mhsaAttnFixed M x sqrtHd mask mexp S n (c / M.headDim) s j)
      (mhsaV M x n (c / M.headDim) j (c % M.headDim)))

/-- Output projection (line 223); the projection dropout of line 224
is the identity in evaluation mode. -/
def mhsaProj (M : MHSACfg) (x : ℕ → ℕ → ℕ → EFlt) (sqrtHd : ℚ)
    (mask : Option (ℕ → ℕ → ℚ)) (mexp : ℚ → ℚ) (S n s c : ℕ) : EFlt :=
  EFlt.add (.val (M.bProj c))
    (efSum M.embed_dim (fun c2 =>
      EFlt.mul (.val (M.wProj c c2)) (mhsaMerged M x sqrtHd mask mexp S n s c2)))

/-- MultiHeadSelfAttention.forward (lines 182-225) in evaluation mode.
B, S, E are the runtime shape of x; the assertion of line 194 checks E
against the configured embed_dim.  mexp is the framework's scalar exp
and sqrtHd the float value of math.sqrt(head_dim). -/
def MHSACfg.forward (M : MHSACfg) (B S E : ℕ) (x : ℕ → ℕ → ℕ → EFlt)
    (mask : Option (ℕ → ℕ → ℚ)) (mexp : ℚ → ℚ) (sqrtHd : ℚ) :
    Except String (ℕ → ℕ → ℕ → EFlt) :=
  if E ≠ M.embed_dim then
    .error "Input embedding dim must match layer embed_dim"
  else
    .ok (fun n s c => mhsaProj M x sqrtHd mask mexp S n s c)

/-- Finite plus finite is finite. -/
theorem EFlt.add_finite {a b : EFlt} (ha : a.finite = true) (hb : b.finite = true) :
    (EFlt.add a b).finite = true := by
  cases a <;> cases b <;> simp_all [EFlt.finite, EFlt.add]

/-- Finite times finite is finite. -/
theorem EFlt.mul_finite {a b : EFlt} (ha : a.finite = true) (hb : b.finite = true) :
    (EFlt.mul a b).finite = true := by
  cases a <;> cases b <;> simp_all [EFlt.finite, EFlt.mul]

/-- Float zero times a finite value is float zero (this fails for
infinities and NaN, which is why the claims need finite inputs). -/
theorem EFlt.zero_mul_finite {b : EFlt} (hb : b.finite = true) :
    EFlt.mul (.val 0) b = .val 0 := by
  cases b <;> simp_all [EFlt.finite, EFlt.mul]

/-- A sum of float zeros is float zero. -/
theorem efSum_eq_zero {n : ℕ} {f : ℕ → EFlt} (h : ∀ j, j < n → f j = .val 0) :
    efSum n f = .val 0 := by
  induction n with
  | zero => rfl
  | succ k ih =>
    rw [efSum, ih (fun j hj => h j (Nat.lt_succ_of_lt hj)), h k (Nat.lt_succ_self k)]
    simp [EFlt.add]

/-- A sum of finite values is finite. -/
theorem efSum_finite {n : ℕ} {f : ℕ → EFlt} (h : ∀ j, j < n → (f j).finite = true) :
    (efSum n f).finite = true := by
  induction n with
  | zero => rfl
  | succ k ih =>
    exact EFlt.add_finite (ih (fun j hj => h j (Nat.lt_succ_of_lt hj)))
      (h k (Nat.lt_succ_self k))

/-- The value slice is finite whenever the inputs of its batch row are
finite (the weights are always finite). -/
theorem mhsaV_finite (M : MHSACfg) (x : ℕ → ℕ → ℕ → EFlt) {S : ℕ} {b : ℕ}
    (hx : ∀ s c, s < S → c < M.embed_dim → (x b s c).finite = true)
    {h j d : ℕ} (hj : j < S) : (mhsaV M x b h j d).finite = true := by
  unfold mhsaV mhsaQkv
  refine EFlt.add_finite rfl (efSum_finite fun c hc => ?_)
  exact EFlt.mul_finite rfl (hx j c hj hc)

/-- On a fully masked batch row every attention weight of that row is
NaN after softmax and hence zero after nan_to_num. -/
theorem mhsaAttnFixed_fullyMasked (M : MHSACfg) (x : ℕ → ℕ → ℕ → EFlt)
    (sqrtHd : ℚ) (m : ℕ → ℕ → ℚ) (mexp : ℚ → ℚ) {S b : ℕ}
    (hm : ∀ j, j < S → m b j = 0) {h s j : ℕ} (hj : j < S) :
    mhsaAttnFixed M x sqrtHd (some m) mexp S b h s j = .val 0 := by
  have hnan : mhsaAttn M x sqrtHd (some m) mexp S b h s j = .nan := by
    unfold mhsaAttn
    have hnum : mhsaScoresMasked M x sqrtHd (some m) b h s j = .negInf := by
      unfold mhsaScoresMasked
      simp [hm j hj]
    have hden : efSum S (fun j2 => efExp mexp (mhsaScoresMasked M x sqrtHd (some m) b h s j2)) =
        .val 0 := by
      refine efSum_eq_zero fun j2 hj2 => ?_
      unfold mhsaScoresMasked
      simp [hm j2 hj2, efExp]
    rw [hnum, hden]
    simp [efExp, EFlt.div]
  rw [mhsaAttnFixed, hnan]
  rfl

/-- On a fully masked batch row of finite inputs, every projected
output entry is exactly the projection bias. -/
theorem mhsaProj_fullyMasked (M : MHSACfg) (x : ℕ → ℕ → ℕ → EFlt)
    (sqrtHd : ℚ) (m : ℕ → ℕ → ℚ) (mexp : ℚ → ℚ) {S b : ℕ}
    (hm : ∀ j, j < S → m b j = 0)
    (hx : ∀ s c, s < S → c < M.embed_dim → (x b s c).finite = true)
    (s c : ℕ) : mhsaProj M x sqrtHd (some m) mexp S b s c = .val (M.bProj c) := by
  have hmerged : ∀ c2, mhsaMerged M x sqrtHd (some m) mexp S b s c2 = .val 0 := by
    intro c2
    refine efSum_eq_zero fun j hj => ?_
    rw [mhsaAttnFixed_fullyMasked M x sqrtHd m mexp hm hj]
    exact EFlt.zero_mul_finite (mhsaV_finite M x hx hj)
  unfold mhsaProj
  rw [efSum_eq_zero fun c2 hc2 => by rw [hmerged c2]; simp [EFlt.mul]]
  simp [EFlt.add]

/-- C1, amended: on an input batch of finite values whose batch row b
has an all-zero padding mask, MultiHeadSelfAttention.forward in
evaluation mode returns, at every position of row b, exactly the
output-projection bias vector — finite and never NaN, but all-zero
only when that bias is zero. -/
theorem mhsa_fullyMasked_row_gives_bias (M : MHSACfg) (B S : ℕ)
    (x : ℕ → ℕ → ℕ → EFlt) (m : ℕ → ℕ → ℚ) (mexp : ℚ → ℚ) (sqrtHd : ℚ) (b : ℕ)
    (hm : ∀ j, j < S → m b j = 0)
    (hx : ∀ s c, s < S → c < M.embed_dim → (x b s c).finite = true) :
    ∃ f, M.forward B S M.embed_dim x (some m) mexp sqrtHd = .ok f ∧
      ∀ s c, f b s c = .val (M.bProj c) ∧ (f b s c).isNaN = false := by
  refine ⟨fun n s c => mhsaProj M x sqrtHd (some m) mexp S n s c, by
    simp [MHSACfg.forward], fun s c => ?_⟩
  have hproj := mhsaProj_fullyMasked M x sqrtHd m mexp hm hx s c
  exact ⟨hproj, by show (mhsaProj M x sqrtHd (some m) mexp S b s c).isNaN = false
                   rw [hproj]; rfl⟩

/-- Concrete one-token configuration used to test the fully-masked
behaviour: all weights zero, output-projection bias one. -/
def mhsaCfgC1 : MHSACfg :=
  ⟨1, 1, fun _ _ => 0, fun _ => 0, fun _ _ => 0, fun _ => 1⟩

/-- C1, counterexample to the claim as stated: with a fully masked
single row, the forward output is the projection bias (here 1), which
is not NaN but also not zero, refuting the all-zero claim. -/
theorem mhsa_fullyMasked_not_allZero :
    ∃ f, mhsaCfgC1.forward 1 1 1 (fun _ _ _ => .val 0) (some (fun _ _ => 0)) id 1 = .ok f ∧
      f 0 0 0 ≠ .val 0 ∧ (f 0 0 0).isNaN = false := by
  have hproj := @mhsaProj_fullyMasked mhsaCfgC1 (fun _ _ _ => .val 0) 1
    (fun _ _ => 0) id 1 0 (fun _ _ => rfl) (fun _ _ _ _ => rfl) 0 0
  refine ⟨fun n s c => mhsaProj mhsaCfgC1 (fun _ _ _ => .val 0) 1
    (some (fun _ _ => 0)) id 1 n s c, ?_, ?_, ?_⟩
  · simp [MHSACfg.forward, mhsaCfgC1]
  · show mhsaProj mhsaCfgC1 (fun _ _ _ => .val 0) 1 (some (fun _ _ => 0)) id 1 0 0 0 ≠ .val 0
    rw [hproj]
    simp [mhsaCfgC1]
  · show (mhsaProj mhsaCfgC1 (fun _ _ _ => .val 0) 1 (some (fun _ _ => 0)) id 1 0 0 0).isNaN = false
    rw [hproj]
    rfl

/-- Witness for the amended C1 theorem at a concrete input. -/
theorem mhsa_fullyMasked_row_gives_bias_witness :
    (∀ j, j < 1 → (fun (_ _ : ℕ) => (0 : ℚ)) 0 j = 0) ∧
    (∀ s c, s < 1 → c < mhsaCfgC1.embed_dim →
      ((fun (_ _ _ : ℕ) => EFlt.val 2) 0 s c).finite = true) ∧
    (∃ f, mhsaCfgC1.forward 1 1 mhsaCfgC1.embed_dim (fun _ _ _ => EFlt.val 2)
        (some (fun _ _ => 0)) id 1 = .ok f ∧
      ∀ s c, f 0 s c = .val (mhsaCfgC1.bProj c) ∧ (f 0 s c).isNaN = false) :=
  ⟨fun _ _ => rfl, fun _ _ _ _ => rfl,
    mhsa_fullyMasked_row_gives_bias mhsaCfgC1 1 1 (fun _ _ _ => EFlt.val 2)
      (fun _ _ => 0) id 1 0 (fun _ _ => rfl) (fun _ _ _ _ => rfl)⟩

/-- Denotations of the two submodules held by TemporalTransformerEncoder
(transformers.py lines 331-345): the inner TransformerEncoder stack and
the final LayerNorm, as maps on [batch, seq, embed] tensors; the encoder
also receives the optional mask, which it applies inside attention. -/
structure TTE where
  enc : (ℕ → ℕ → ℕ → ℚ) → Option (ℕ → ℕ → ℚ) → (ℕ → ℕ → ℕ → ℚ)
  norm : (ℕ → ℕ → ℕ → ℚ) → (ℕ → ℕ → ℕ → ℚ)

/-- TemporalTransformerEncoder.forward (lines 347-374) over exact
rationals.  With a mask, padded frames are zeroed, the per-clip valid
count is clamped to at least 1, and the sum is divided by it; without
a mask, a plain mean over all S frame positions.  The shape assertions
of lines 359-361 concern dimensions that the function-tensor embedding
carries as the arguments B, S, E. -/
def TTE.forward (T : TTE) (B S E : ℕ) (x : ℕ → ℕ → ℕ → ℚ)
    (mask : Option (ℕ → ℕ → ℚ)) : ℕ → ℕ → ℚ :=
  match mask with
  | some m => fun b e =>
      (∑ s ∈ Finset.range S, T.norm (T.enc x (some m)) b s e * m b s) /
        max (∑ s ∈ Finset.range S, m b s) 1
  | none => fun b e =>
      (∑ s ∈ Finset.range S, T.norm (T.enc x none) b s e) / S

/-- C4: with a 0-1 mask, TemporalTransformerEncoder.forward returns
per clip the sum of the post-encoder, post-normalization vectors at
valid positions divided by the count of valid positions clamped to at
least 1; with no mask it returns the plain mean over all positions. -/
theorem tte_forward_masked_mean (T : TTE) (B S E : ℕ) (x : ℕ → ℕ → ℕ → ℚ) :
    (∀ m : ℕ → ℕ → ℚ, (∀ b s, s < S → m b s = 0 ∨ m b s = 1) → ∀ b e,
      T.forward B S E x (some m) b e =
        (∑ s ∈ (Finset.range S).filter (fun s => m b s = 1),
            T.norm (T.enc x (some m)) b s e) /
          max (((Finset.range S).filter (fun s => m b s = 1)).card : ℚ) 1) ∧
    (∀ b e, T.forward B S E x none b e =
      (∑ s ∈ Finset.range S, T.norm (T.enc x none) b s e) / S) := by
  constructor
  · intro m hm b e
    show (∑ s ∈ Finset.range S, T.norm (T.enc x (some m)) b s e * m b s) /
        max (∑ s ∈ Finset.range S, m b s) 1 = _
    congr 1
    · rw [Finset.sum_filter]
      refine Finset.sum_congr rfl fun s hs => ?_
      rcases hm b s (Finset.mem_range.mp hs) with h0 | h1
      · simp [h0]
      · simp [h1]
    · congr 1
      have : ∀ s ∈ Finset.range S, m b s = if m b s = 1 then (1 : ℚ) else 0 := by
        intro s hs
        rcases hm b s (Finset.mem_range.mp hs) with h0 | h1
        · simp [h0]
        · simp [h1]
      rw [Finset.sum_congr rfl this, Finset.sum_boole]
  · intro b e
    rfl

/-- C10: a clip whose mask row is all zeros comes out of
TemporalTransformerEncoder.forward as exactly the zero vector: every
position is zeroed, the valid count clamps to 1, and 0/1 = 0. -/
theorem tte_forward_fullyPadded_row (T : TTE) (B S E : ℕ)
    (x : ℕ → ℕ → ℕ → ℚ) (m : ℕ → ℕ → ℚ) (b : ℕ)
    (hm : ∀ s, s < S → m b s = 0) :
    ∀ e, T.forward B S E x (some m) b e = 0 := by
  intro e
  show (∑ s ∈ Finset.range S, T.norm (T.enc x (some m)) b s e * m b s) /
      max (∑ s ∈ Finset.range S, m b s) 1 = 0
  have h1 : ∑ s ∈ Finset.range S, T.norm (T.enc x (some m)) b s e * m b s = 0 :=
    Finset.sum_eq_zero fun s hs => by rw [hm s (Finset.mem_range.mp hs), mul_zero]
  rw [h1]
  exact zero_div _

/-- Concrete temporal encoder whose inner stack and norm are the
identity, used to instantiate the pooling theorems. -/
def tteId : TTE := ⟨fun x _ => x, fun y => y⟩

/-- Concrete mask valid on the first two of four frames. -/
def maskC4 : ℕ → ℕ → ℚ := fun _ s => if s < 2 then 1 else 0

/-- Witness for the C4 theorem at the mask [1,1,0,0] over 4 frames. -/
theorem tte_forward_masked_mean_witness :
    (∀ b s, s < 4 → maskC4 b s = 0 ∨ maskC4 b s = 1) ∧
    (∀ b e, tteId.forward 1 4 1 (fun _ s _ => (s : ℚ)) (some maskC4) b e =
      (∑ s ∈ (Finset.range 4).filter (fun s => maskC4 b s = 1),
          tteId.norm (tteId.enc (fun _ s _ => (s : ℚ)) (some maskC4)) b s e) /
        max (((Finset.range 4).filter (fun s => maskC4 b s = 1)).card : ℚ) 1) := by
  have hm : ∀ b s, s < 4 → maskC4 b s = 0 ∨ maskC4 b s = 1 := by
    intro b s _
    by_cases h : s < 2 <;> simp [maskC4, h]
  exact ⟨hm, (tte_forward_masked_mean tteId 1 4 1 (fun _ s _ => (s : ℚ))).1 maskC4 hm⟩

/-- Concrete all-zero mask. -/
def maskZero : ℕ → ℕ → ℚ := fun _ _ => 0

/-- Witness for the C10 theorem: a fully padded clip row pools to the
zero vector. -/
theorem tte_forward_fullyPadded_row_witness :
    (∀ s, s < 4 → maskZero 0 s = 0) ∧
    (∀ e, tteId.forward 1 4 1 (fun _ s _ => (s : ℚ)) (some maskZero) 0 e = 0) :=
  ⟨fun _ _ => rfl,
    tte_forward_fullyPadded_row tteId 1 4 1 (fun _ s _ => (s : ℚ)) maskZero 0 (fun _ _ => rfl)⟩

/-- Rank-3 tensor with an explicit shape, used where a claim is about
the shape of a result. -/
structure Tensor3 where
  shape : ℕ × ℕ × ℕ
  data : ℕ → ℕ → ℕ → ℚ

/-- Configuration and learned parameters of PatchEmbedding
(transformers.py lines 8-36): a Conv2d with kernel = stride =
patch_size acting as the patch projection. -/
structure PatchEmbedding where
  img_size : ℕ
  patch_size : ℕ
  in_channels : ℕ
  embed_dim : ℕ
  num_patches : ℕ
  weight : ℕ → ℕ → ℕ → ℕ → ℚ
  bias : ℕ → ℚ

/-- PatchEmbedding constructor (lines 19-36).  Line 24 evaluates
(img_size // patch_size) ** 2 before the divisibility check, so in
Python a zero patch_size raises ZeroDivisionError there; lines 27-28
then raise ValueError when img_size is not divisible by patch_size. -/
def PatchEmbedding.init (img patch inch e : ℕ)
    (w : ℕ → ℕ → ℕ → ℕ → ℚ) (bi : ℕ → ℚ) : Except String PatchEmbedding :=
  if patch = 0 then
    .error "ZeroDivisionError: integer division or modulo by zero"
  else if img % patch ≠ 0 then
    .error "img_size must be divisible by patch_size."
  else
    .ok ⟨img, patch, inch, e, (img / patch) ^ 2, w, bi⟩

/-- Output spatial extent of a convolution with kernel = stride = P on
extent H (no padding, no dilation), as computed by the framework. -/
def convOutDim (H P : ℕ) : ℕ := (H - P) / P + 1

/-- Value of the patch-projection Conv2d at batch n, out-channel e,
patch grid cell (i, j). -/
def PatchEmbedding.conv (pe : PatchEmbedding) (x : ℕ → ℕ → ℕ → ℕ → ℚ)
    (n e i j : ℕ) : ℚ :=
  pe.bias e + ∑ c ∈ Finset.range pe.in_channels, ∑ a ∈ Finset.range pe.patch_size,
    ∑ b2 ∈ Finset.range pe.patch_size,
      pe.weight e c a b2 * x n c (i * pe.patch_size + a) (j * pe.patch_size + b2)

/-- PatchEmbedding.forward (lines 38-62) on a rank-4 input of shape
[N, C, H, W].  Lines 49-52 raise ValueError when the two spatial
extents mismatch the configured img_size (the rank check always passes
in this rank-4 embedding, and the channel count is not part of that
explicit check); applying the Conv2d then fails with a framework shape
error when C mismatches the configured in_channels, and with the
framework's kernel-size error when a spatial extent is smaller than
the kernel (= patch_size), which for constructible configurations can
only happen at img_size = 0.  On success the conv output is flattened
over the patch grid and transposed to [N, num_patches, embed_dim]
(lines 55-61). -/
def PatchEmbedding.forward (pe : PatchEmbedding) (N C H W : ℕ)
    (x : ℕ → ℕ → ℕ → ℕ → ℚ) : Except String Tensor3 :=
  if H ≠ pe.img_size ∨ W ≠ pe.img_size then
    .error "Input tensor must have shape batch_size, in_channels, img_size, img_size"
  else if C ≠ pe.in_channels then
    .error "RuntimeError: expected input to have in_channels channels"
  else if H < pe.patch_size ∨ W < pe.patch_size then
    .error "RuntimeError: kernel size cannot be greater than actual input size"
  else
    .ok ⟨(N, convOutDim H pe.patch_size * convOutDim W pe.patch_size, pe.embed_dim),
      fun n l e => pe.conv x n e (l / convOutDim W pe.patch_size) (l % convOutDim W pe.patch_size)⟩

/-- C5, amended: when the configured image size is at least the patch
size, PatchEmbedding.forward succeeds exactly when the input channel
count, height, and width all match the configuration; any mismatch
produces a shape error (spatial mismatches from the explicit check of
lines 49-52, channel mismatches from the Conv2d application). -/
theorem patchEmbedding_forward_shape_check (pe : PatchEmbedding) (N C H W : ℕ)
    (x : ℕ → ℕ → ℕ → ℕ → ℚ) (hP : pe.patch_size ≤ pe.img_size) :
    (∃ t, pe.forward N C H W x = .ok t) ↔
      (C = pe.in_channels ∧ H = pe.img_size ∧ W = pe.img_size) := by
  constructor
  · intro ⟨t, ht⟩
    by_cases h1 : H ≠ pe.img_size ∨ W ≠ pe.img_size
    · rw [PatchEmbedding.forward, if_pos h1] at ht
      exact absurd ht (by simp)
    · by_cases h2 : C ≠ pe.in_channels
      · rw [PatchEmbedding.forward, if_neg h1, if_pos h2] at ht
        exact absurd ht (by simp)
      · push_neg at h1
        exact ⟨not_not.mp h2, h1.1, h1.2⟩
  · rintro ⟨hC, hH, hW⟩
    subst hC; subst hH; subst hW
    exact ⟨⟨(N, convOutDim pe.img_size pe.patch_size * convOutDim pe.img_size pe.patch_size,
        pe.embed_dim),
      fun n l e => pe.conv x n e (l / convOutDim pe.img_size pe.patch_size)
        (l % convOutDim pe.img_size pe.patch_size)⟩,
      by rw [PatchEmbedding.forward, if_neg (by simp), if_neg (by simp),
        if_neg (by simp; omega)]⟩

/-- Degenerate but constructible configuration: image size 0 with
patch size 16 passes the divisibility check of lines 27-28. -/
def peC5 : PatchEmbedding := ⟨0, 16, 3, 768, 0, fun _ _ _ _ => 0, fun _ => 0⟩

/-- C5, counterexample to the claim as stated: the img_size = 0,
patch_size = 16 module is constructible, yet on an input whose channel
count, height, and width all exactly match this configuration the
forward call fails (the Conv2d kernel exceeds the 0-sized input)
instead of succeeding. -/
theorem patchEmbedding_matching_input_can_fail :
    PatchEmbedding.init 0 16 3 768 (fun _ _ _ _ => 0) (fun _ => 0) = .ok peC5 ∧
    (3 = peC5.in_channels ∧ 0 = peC5.img_size ∧ 0 = peC5.img_size) ∧
    ¬ ∃ t, peC5.forward 1 3 0 0 (fun _ _ _ _ => 0) = .ok t := by
  refine ⟨?_, ⟨rfl, rfl, rfl⟩, ?_⟩
  · rw [PatchEmbedding.init, if_neg (by omega), if_neg (by simp)]
    rfl
  · intro ⟨t, ht⟩
    rw [PatchEmbedding.forward, if_neg (by simp [peC5]), if_neg (by simp [peC5]),
      if_pos (by simp [peC5])] at ht
    exact absurd ht (by simp)

/-- Concrete 4x4-image, 2x2-patch configuration for the C5 witness. -/
def peC5w : PatchEmbedding := ⟨4, 2, 3, 5, 4, fun _ _ _ _ => 0, fun _ => 0⟩

/-- Witness for the amended C5 theorem at a 4x4-image, 2x2-patch
configuration. -/
theorem patchEmbedding_forward_shape_check_witness :
    peC5w.patch_size ≤ peC5w.img_size ∧
    ((∃ t, peC5w.forward 1 3 4 4 (fun _ _ _ _ => 0) = .ok t) ↔
      (3 = peC5w.in_channels ∧ 4 = peC5w.img_size ∧ 4 = peC5w.img_size)) :=
  ⟨by decide,
    patchEmbedding_forward_shape_check peC5w 1 3 4 4 (fun _ _ _ _ => 0) (by decide)⟩

/-- A strided non-overlapping convolution tiles a divisible extent
exactly: the output extent is H / P. -/
theorem convOutDim_of_dvd {H P : ℕ} (hpos : 0 < P) (hH : 0 < H) (hdvd : P ∣ H) :
    convOutDim H P = H / P := by
  obtain ⟨k, hk⟩ := hdvd
  subst hk
  have hk0 : 0 < k := by
    rcases Nat.eq_zero_or_pos k with h | h
    · subst h; simp at hH
    · exact h
  unfold convOutDim
  have h2 : P * k - P = P * (k - 1) := by rw [Nat.mul_sub, mul_one]
  rw [h2, Nat.mul_div_cancel_left _ hpos, Nat.mul_div_cancel_left _ hpos]
  omega

/-- C7: for every valid configuration (patch_size dividing a positive
image_size) and every exactly matching input, PatchEmbedding.forward
succeeds with output shape [N, (image_size / patch_size)^2, embed_dim]. -/
theorem patchEmbedding_forward_output_shape (pe : PatchEmbedding) (N : ℕ)
    (x : ℕ → ℕ → ℕ → ℕ → ℚ) (hpos : 0 < pe.patch_size) (himg : 0 < pe.img_size)
    (hdvd : pe.patch_size ∣ pe.img_size) :
    ∃ t, pe.forward N pe.in_channels pe.img_size pe.img_size x = .ok t ∧
      t.shape = (N, (pe.img_size / pe.patch_size) ^ 2, pe.embed_dim) := by
  have hfwd : pe.forward N pe.in_channels pe.img_size pe.img_size x =
      .ok ⟨(N, convOutDim pe.img_size pe.patch_size * convOutDim pe.img_size pe.patch_size,
              pe.embed_dim),
           fun n l e => pe.conv x n e (l / convOutDim pe.img_size pe.patch_size)
             (l % convOutDim pe.img_size pe.patch_size)⟩ := by
    have hP : pe.patch_size ≤ pe.img_size := Nat.le_of_dvd himg hdvd
    rw [PatchEmbedding.forward, if_neg (by simp), if_neg (by simp),
      if_neg (by simp; omega)]
  refine ⟨_, hfwd, ?_⟩
  show (N, convOutDim pe.img_size pe.patch_size * convOutDim pe.img_size pe.patch_size,
    pe.embed_dim) = _
  rw [convOutDim_of_dvd hpos himg hdvd, pow_two]

/-- C8: with a positive patch size, PatchEmbedding construction
succeeds exactly when patch_size divides img_size; a non-divisible
pair fails already inside the constructor, before any forward call. -/
theorem patchEmbedding_init_divisibility (img patch inch e : ℕ)
    (w : ℕ → ℕ → ℕ → ℕ → ℚ) (bi : ℕ → ℚ) (hpos : 0 < patch) :
    (∃ pe, PatchEmbedding.init img patch inch e w bi = .ok pe) ↔ patch ∣ img := by
  constructor
  · intro ⟨pe, hpe⟩
    by_cases h : img % patch ≠ 0
    · rw [PatchEmbedding.init, if_neg (by omega), if_pos h] at hpe
      exact absurd hpe (by simp)
    · exact Nat.dvd_of_mod_eq_zero (not_not.mp h)
  · intro hd
    exact ⟨⟨img, patch, inch, e, (img / patch) ^ 2, w, bi⟩,
      by rw [PatchEmbedding.init, if_neg (by omega),
        if_neg (by simp [Nat.eq_zero_of_dvd_of_lt, Nat.mod_eq_zero_of_dvd hd])]⟩

/-- Concrete 4x4-image, 2x2-patch configuration. -/
def peC7 : PatchEmbedding := ⟨4, 2, 3, 5, 4, fun _ _ _ _ => 0, fun _ => 0⟩

/-- Witness for the C7 theorem: a 4x4 image with 2x2 patches yields a
4-patch sequence of width 5. -/
theorem patchEmbedding_forward_output_shape_witness :
    0 < peC7.patch_size ∧ 0 < peC7.img_size ∧ peC7.patch_size ∣ peC7.img_size ∧
    ∃ t, peC7.forward 7 peC7.in_channels peC7.img_size peC7.img_size (fun _ _ _ _ => 0) = .ok t ∧
      t.shape = (7, (peC7.img_size / peC7.patch_size) ^ 2, peC7.embed_dim) :=
  ⟨by decide, by decide, by decide,
    patchEmbedding_forward_output_shape peC7 7 (fun _ _ _ _ => 0)
      (by decide) (by decide) (by decide)⟩

/-- Witness for the C8 theorem at the pair (224, 15) from the spec. -/
theorem patchEmbedding_init_divisibility_witness :
    0 < 15 ∧
    ((∃ pe, PatchEmbedding.init 224 15 3 768 (fun _ _ _ _ => 0) (fun _ => 0) = .ok pe) ↔
      15 ∣ 224) :=
  ⟨by decide,
    patchEmbedding_init_divisibility 224 15 3 768 (fun _ _ _ _ => 0) (fun _ => 0) (by decide)⟩

/-- The div_term vector of PositionalEncoding.__init__ (line 84),
indexed by the even channel c: exp(c * (-log 10000 / d)). -/
noncomputable def peDivTerm (d c : ℕ) : ℝ :=
  Real.exp (c * (-(Real.log 10000) / d))

/-- The precomputed sinusoidal table (lines 80-88): even channels get
sin(p * div_term), odd channels cos(p * div_term) of the preceding
even channel. -/
noncomputable def peTable (d p c : ℕ) : ℝ :=
  if c % 2 = 0 then Real.sin (p * peDivTerm d c)
  else Real.cos (p * peDivTerm d (c - 1))

/-- Configuration of PositionalEncoding (lines 64-94): the embedding
width and the precomputed maximum length of the table buffer. -/
structure PosEnc where
  embed_dim : ℕ
  max_len : ℕ

/-- PositionalEncoding.forward (lines 96-116): checks the embedding
width against the table (lines 107-108) and the sequence length
against the precomputed maximum (lines 111-112), then adds the first L
rows of the table (line 115); positions at or beyond L are never read
by the caller, so the function-tensor result adds the table at every
index. -/
noncomputable def PosEnc.forward (pe : PosEnc) (B L D : ℕ)
    (x : ℕ → ℕ → ℕ → ℝ) : Except String (ℕ → ℕ → ℕ → ℝ) :=
  if D ≠ pe.embed_dim then
    .error "Input embedding dimension must match positional encoding dimension."
  else if pe.max_len < L then
    .error "Input sequence length exceeds maximum length."
  else
    .ok (fun b l c => x b l c + peTable pe.embed_dim l c)

/-- The div_term entry is exactly 10000 to the power -(c/d). -/
theorem peDivTerm_eq (d c : ℕ) : peDivTerm d c = (10000 : ℝ) ^ (-((c : ℝ) / d)) := by
  unfold peDivTerm
  rw [Real.rpow_def_of_pos (by norm_num)]
  congr 1
  ring

/-- C6: for a batch of embedding width embed_dim and length L within
the precomputed maximum, PositionalEncoding.forward returns the input
plus the table, and the table satisfies the claimed closed form
table[p, 2i] = sin(p / 10000^(2i/d)) and
table[p, 2i+1] = cos(p / 10000^(2i/d)) with d = embed_dim. -/
theorem posEncoding_forward_table (pe : PosEnc) (B L : ℕ) (x : ℕ → ℕ → ℕ → ℝ)
    (hL : L ≤ pe.max_len) :
    pe.forward B L pe.embed_dim x =
      .ok (fun b l c => x b l c + peTable pe.embed_dim l c) ∧
    (∀ p i : ℕ, peTable pe.embed_dim p (2 * i) =
      Real.sin ((p : ℝ) / 10000 ^ ((2 * i : ℝ) / pe.embed_dim))) ∧
    (∀ p i : ℕ, peTable pe.embed_dim p (2 * i + 1) =
      Real.cos ((p : ℝ) / 10000 ^ ((2 * i : ℝ) / pe.embed_dim))) := by
  have hdt : ∀ i : ℕ, peDivTerm pe.embed_dim (2 * i) =
      (10000 : ℝ) ^ (-((2 * (i : ℝ)) / pe.embed_dim)) := by
    intro i
    rw [peDivTerm_eq]
    congr 2
    push_cast
    ring
  refine ⟨?_, ?_, ?_⟩
  · rw [PosEnc.forward, if_neg (by simp), if_neg (by omega)]
  · intro p i
    rw [peTable, if_pos (by omega), hdt i, Real.rpow_neg (by norm_num),
      ← div_eq_mul_inv]
  · intro p i
    rw [peTable, if_neg (by omega), show 2 * i + 1 - 1 = 2 * i by omega,
      hdt i, Real.rpow_neg (by norm_num), ← div_eq_mul_inv]

/-- Witness for the C6 theorem at a width-2, max-length-4 table. -/
theorem posEncoding_forward_table_witness :
    1 ≤ (PosEnc.mk 2 4).max_len ∧
    ((PosEnc.mk 2 4).forward 1 1 (PosEnc.mk 2 4).embed_dim (fun _ _ _ => 0) =
      .ok (fun b l c => (fun (_ _ _ : ℕ) => (0 : ℝ)) b l c +
        peTable (PosEnc.mk 2 4).embed_dim l c) ∧
    (∀ p i : ℕ, peTable (PosEnc.mk 2 4).embed_dim p (2 * i) =
      Real.sin ((p : ℝ) / 10000 ^ ((2 * i : ℝ) / (PosEnc.mk 2 4).embed_dim))) ∧
    (∀ p i : ℕ, peTable (PosEnc.mk 2 4).embed_dim p (2 * i + 1) =
      Real.cos ((p : ℝ) / 10000 ^ ((2 * i : ℝ) / (PosEnc.mk 2 4).embed_dim)))) :=
  ⟨by decide,
    posEncoding_forward_table (PosEnc.mk 2 4) 1 1 (fun _ _ _ => 0) (by decide)⟩

/-- True when any entry of an [N, L, D] tensor is NaN, mirroring
torch.isnan(x).any(). -/
def anyNaN (N L D : ℕ) (f : ℕ → ℕ → ℕ → EFlt) : Bool :=
  (List.range N).any fun n => (List.range L).any fun l =>
    (List.range D).any fun d => (f n l d).isNaN

/-- Submodule denotations and configuration of
VisionTransformerWithTemporal (transformers.py lines 376-453).  The
submodules constructed in __init__ are carried as function fields:
patch_embed and pos_encoder may raise shape errors, the encoder stack,
final norm and classification head are total maps, and the temporal
encoder may raise its mask-shape assertion. -/
structure VTWT where
  img_size : ℕ
  embed_dim : ℕ
  num_patches : ℕ
  use_cls_token : Bool
  cls_token : ℕ → EFlt
  patch_embed : ℕ → ℕ → ℕ → ℕ → (ℕ → ℕ → ℕ → ℕ → EFlt) →
    Except String (ℕ → ℕ → ℕ → EFlt)
  pos_encoder : ℕ → ℕ → ℕ → (ℕ → ℕ → ℕ → EFlt) →
    Except String (ℕ → ℕ → ℕ → EFlt)
  encoder : (ℕ → ℕ → ℕ → EFlt) → (ℕ → ℕ → ℕ → EFlt)
  norm_f : (ℕ → ℕ → ℕ → EFlt) → (ℕ → ℕ → ℕ → EFlt)
  temporal_encoder : ℕ → ℕ → (ℕ → ℕ → ℕ → EFlt) → Option (ℕ → ℕ → EFlt) →
    Except String (ℕ → ℕ → EFlt)
  head : (ℕ → ℕ → EFlt) → (ℕ → ℕ → EFlt)

/-- Token-sequence length fed to the spatial encoder: num_patches plus
one when the class token is enabled (lines 419-429). -/
def VTWT.tokLen (M : VTWT) : ℕ :=
  M.num_patches + (if M.use_cls_token then 1 else 0)

/-- The view of line 473: the [B, S, C, H, W] clip batch flattened to
[B*S, C, H, W] frames, frame n being clip n / S at position n % S. -/
def view5to4 (S : ℕ) (x : ℕ → ℕ → ℕ → ℕ → ℕ → EFlt) : ℕ → ℕ → ℕ → ℕ → EFlt :=
  fun n c i j => x (n / S) (n % S) c i j

/-- Class-token concatenation of lines 479-481: when enabled, token 0
is the learned class token and patch l shifts to token l + 1. -/
def VTWT.withCls (M : VTWT) (p : ℕ → ℕ → ℕ → EFlt) : ℕ → ℕ → ℕ → EFlt :=
  if M.use_cls_token then
    fun n l c => if l = 0 then M.cls_token c else p n (l - 1) c
  else p

/-- Per-frame feature extraction of lines 498-501: the class-token
position when enabled, otherwise the mean over all token positions. -/
def VTWT.featOf (M : VTWT) (enc : ℕ → ℕ → ℕ → EFlt) : ℕ → ℕ → EFlt :=
  if M.use_cls_token then fun n c => enc n 0 c
  else fun n c => EFlt.div (efSum M.tokLen (fun l => enc n l c)) (.val (M.tokLen : ℚ))

/-- The view of line 504: per-frame features regrouped to
[batch, seq, embed_dim]. -/
def VTWT.featView (M : VTWT) (S : ℕ) (enc : ℕ → ℕ → ℕ → EFlt) :
    ℕ → ℕ → ℕ → EFlt :=
  fun b s c => M.featOf enc (b * S + s) c

/-- VisionTransformerWithTemporal.forward (lines 455-511) in
evaluation mode.  The embedding dropout of line 485 is the identity;
the commented-out img_mask lines 488-489 mean img_mask is accepted but
never read; lines 493-495 raise when any post-norm encoder value is
NaN. -/
def VTWT.forward (M : VTWT) (B S C H W : ℕ)
    (x : ℕ → ℕ → ℕ → ℕ → ℕ → EFlt)
    (img_mask seq_mask : Option (ℕ → ℕ → EFlt)) :
    Except String (ℕ → ℕ → EFlt) :=
  if H ≠ M.img_size then
    .error "Input img_size does not match expected size"
  else
    match M.patch_embed (B * S) C H W (view5to4 S x) with
    | .error e => .error e
    | .ok p =>
      match M.pos_encoder (B * S) M.tokLen M.embed_dim (M.withCls p) with
      | .error e => .error e
      | .ok xe =>
        if anyNaN (B * S) M.tokLen M.embed_dim (M.norm_f (M.encoder xe)) then
          .error "NaN detected after Transformer encoder."
        else
          match M.temporal_encoder B S (M.featView S (M.norm_f (M.encoder xe))) seq_mask with
          | .error e => .error e
          | .ok t => .ok (M.head t)

/-- Submodule denotations of VisionTransformer, the pretrained-backbone
variant (transformers.py lines 513-577): the backbone with its head
replaced by the identity maps one frame to a feature vector; lstmOut
gives the LSTM top-layer hidden state after consuming a finite input
prefix (nn.LSTM output at time t is a function of inputs 0..t, and
packed evaluation keeps the per-sequence recurrences independent);
temporal_fc and classifier are the two heads, whose dropout is the
identity in evaluation mode. -/
structure VT where
  use_temporal_model : Bool
  vit : (ℕ → ℕ → ℕ → ℚ) → (ℕ → ℚ)
  lstmOut : List (ℕ → ℚ) → (ℕ → ℚ)
  temporal_fc : (ℕ → ℚ) → (ℕ → ℚ)
  classifier : (ℕ → ℚ) → (ℕ → ℚ)

/-- Hidden state of the recurrent layer at time index t on a clip: the
lstmOut denotation applied to the first t+1 frame features. -/
def VT.lstmStateAt (M : VT) (clip : ℕ → (ℕ → ℚ)) (t : ℕ) : ℕ → ℚ :=
  M.lstmOut ((List.range (t + 1)).map clip)

/-- Valid length of clip b: the sum of its 0-1 mask over the T frame
positions (line 612). -/
def lengthsOf {n : ℕ} (T : ℕ) (m : Fin n → ℕ → ℕ) (b : Fin n) : ℕ :=
  ∑ t ∈ Finset.range T, m b t

/-- Per-clip lengths used by the recurrent path (lines 607-612): all
frames when no mask, otherwise the mask row sums. -/
def vtLengths {n : ℕ} (T : ℕ) (seq_mask : Option (Fin n → ℕ → ℕ)) : Fin n → ℕ :=
  match seq_mask with
  | none => fun _ => T
  | some m => fun b => lengthsOf T m b

/-- The unpacked, order-restored LSTM output tensor read at original
batch position via the sorting permutation (lines 614-638): the clip
processed at sorted slot jj is clip σ jj; pad_packed_sequence fills
positions at or beyond that clip's length with zeros; the argsort of
lines 637-638 that restores original order is the inverse permutation,
so callers index this at σ.symm b. -/
def VT.packedOut {n : ℕ} (M : VT) (x : Fin n → ℕ → (ℕ → ℕ → ℕ → ℚ))
    (lengths : Fin n → ℕ) (σ : Equiv.Perm (Fin n)) (jj : Fin n) (t : ℕ) : ℕ → ℚ :=
  if t < lengths (σ jj) then M.lstmStateAt (fun u => M.vit (x (σ jj) u)) t
  else fun _ => 0

/-- VisionTransformer.forward (lines 579-673) in evaluation mode over
exact rationals.  x is the clip batch already split per frame; the
rank-5 assertion of line 591 is structural here.  σ is the descending
length sort produced by torch.sort at line 615; pack_padded_sequence
with enforce_sorted raises unless the permuted lengths are descending,
every length is at least 1, and no length exceeds the padded width T.
On the recurrent path with a mask, the clamped last valid index
(lines 640-645) is gathered per clip in original order; without a mask
the last time step T-1 is taken (lines 646-648).  The non-temporal
path (lines 652-671) is the masked mean (count clamped to 1) or the
plain mean, followed by the classifier head. -/
def VT.forward {n : ℕ} (M : VT) (T : ℕ) (x : Fin n → ℕ → (ℕ → ℕ → ℕ → ℚ))
    (σ : Equiv.Perm (Fin n)) (img_mask seq_mask : Option (Fin n → ℕ → ℕ)) :
    Except String (Fin n → ℕ → ℚ) :=
  if M.use_temporal_model then
    if (∀ i j : Fin n, i ≤ j → vtLengths T seq_mask (σ j) ≤ vtLengths T seq_mask (σ i)) ∧
        (∀ b, 1 ≤ vtLengths T seq_mask b ∧ vtLengths T seq_mask b ≤ T) then
      match seq_mask with
      | some _ => .ok (fun b => M.temporal_fc
          (M.packedOut x (vtLengths T seq_mask) σ (σ.symm b)
            (max (vtLengths T seq_mask b) 1 - 1)))
      | none => .ok (fun b => M.temporal_fc
          (M.packedOut x (vtLengths T seq_mask) σ (σ.symm b) (T - 1)))
    else .error "pack_padded_sequence: invalid lengths for packing"
  else
    match seq_mask with
    | some m => .ok (fun b => M.classifier (fun e =>
        (∑ t ∈ Finset.range T, M.vit (x b t) e * (m b t : ℚ)) /
          max (∑ t ∈ Finset.range T, ((m b t : ℕ) : ℚ)) 1))
    | none => .ok (fun b => M.classifier (fun e =>
        (∑ t ∈ Finset.range T, M.vit (x b t) e) / T))

/-- C2: the img_mask argument never influences the output of either
top-level forward: VisionTransformerWithTemporal.forward (where the
masking lines are commented out) and VisionTransformer.forward (where
it is accepted but never read) return identical results for any two
img_mask values, for every input and sequence mask, in evaluation
mode. -/
theorem img_mask_never_influences_forward :
    (∀ (Mw : VTWT) (B S C H W : ℕ) (x : ℕ → ℕ → ℕ → ℕ → ℕ → EFlt)
      (im1 im2 sm : Option (ℕ → ℕ → EFlt)),
      Mw.forward B S C H W x im1 sm = Mw.forward B S C H W x im2 sm) ∧
    (∀ (n : ℕ) (M : VT) (T : ℕ) (x : Fin n → ℕ → (ℕ → ℕ → ℕ → ℚ))
      (σ : Equiv.Perm (Fin n)) (im1 im2 sm : Option (Fin n → ℕ → ℕ)),
      M.forward T x σ im1 sm = M.forward T x σ im2 sm) :=
  ⟨fun _ _ _ _ _ _ _ _ _ _ => rfl, fun _ _ _ _ _ _ _ _ => rfl⟩

/-- C3: on the recurrent path with a 0-1 mask giving every clip at
least one valid frame, the forward output at each clip b is the head
applied to the LSTM hidden state at time index (valid count of b) - 1,
taken at the clip's original batch position, for every descending
sorting permutation σ accepted by pack_padded_sequence — in particular
the result does not depend on σ. -/
theorem vt_recurrent_selects_last_valid {n : ℕ} (M : VT) (T : ℕ)
    (x : Fin n → ℕ → (ℕ → ℕ → ℕ → ℚ)) (σ : Equiv.Perm (Fin n))
    (im : Option (Fin n → ℕ → ℕ)) (m : Fin n → ℕ → ℕ)
    (htemp : M.use_temporal_model = true)
    (hm01 : ∀ b t, t < T → m b t ≤ 1)
    (hlen : ∀ b, 1 ≤ lengthsOf T m b)
    (hsort : ∀ i j : Fin n, i ≤ j → lengthsOf T m (σ j) ≤ lengthsOf T m (σ i)) :
    M.forward T x σ im (some m) =
      .ok (fun b => M.temporal_fc
        (M.lstmStateAt (fun t => M.vit (x b t)) (lengthsOf T m b - 1))) := by
  have hle : ∀ b, lengthsOf T m b ≤ T := by
    intro b
    calc lengthsOf T m b ≤ ∑ t ∈ Finset.range T, 1 :=
          Finset.sum_le_sum (fun t ht => hm01 b t (Finset.mem_range.mp ht))
      _ = T := by simp
  have hcond : (∀ i j : Fin n, i ≤ j →
      vtLengths T (some m) (σ j) ≤ vtLengths T (some m) (σ i)) ∧
      (∀ b, 1 ≤ vtLengths T (some m) b ∧ vtLengths T (some m) b ≤ T) :=
    ⟨hsort, fun b => ⟨hlen b, hle b⟩⟩
  unfold VT.forward
  rw [htemp]
  rw [if_pos rfl, if_pos hcond]
  show Except.ok (fun b => M.temporal_fc
      (M.packedOut x (vtLengths T (some m)) σ (σ.symm b)
        (max (vtLengths T (some m) b) 1 - 1))) = _
  congr 1
  funext b
  have hmax : max (vtLengths T (some m) b) 1 - 1 = lengthsOf T m b - 1 := by
    have h1 := hlen b
    show max (lengthsOf T m b) 1 - 1 = lengthsOf T m b - 1
    omega
  rw [hmax]
  unfold VT.packedOut
  rw [Equiv.apply_symm_apply]
  rw [if_pos (by show lengthsOf T m b - 1 < lengthsOf T m b; have := hlen b; omega)]

/-- Concrete recurrent-path model: the backbone reads one pixel, the
LSTM state records how many frames it has consumed, both heads are the
identity. -/
def vtC3 : VT :=
  ⟨true, fun fr => fun _ => fr 0 0 0, fun l => fun _ => (l.length : ℚ),
    fun h => h, fun h => h⟩

/-- Concrete mask from the spec example: clip 0 has mask [1,1,1,0]
(length 3), clip 1 has mask [1,1,1,1] (length 4). -/
def mC3 : Fin 2 → ℕ → ℕ := fun b t => if b = 0 ∧ t = 3 then 0 else 1

/-- Witness for the C3 theorem: with the swap permutation as the
descending sort, clip 0 selects the state at time index 2 and clip 1
the state at index 3, in original batch order. -/
theorem vt_recurrent_selects_last_valid_witness :
    vtC3.use_temporal_model = true ∧
    (∀ (b : Fin 2) t, t < 4 → mC3 b t ≤ 1) ∧
    (∀ b : Fin 2, 1 ≤ lengthsOf 4 mC3 b) ∧
    (∀ i j : Fin 2, i ≤ j →
      lengthsOf 4 mC3 (Equiv.swap 0 1 j) ≤ lengthsOf 4 mC3 (Equiv.swap 0 1 i)) ∧
    vtC3.forward 4 (fun _ _ _ _ _ => 0) (Equiv.swap 0 1) none (some mC3) =
      .ok (fun b => vtC3.temporal_fc
        (vtC3.lstmStateAt (fun t => vtC3.vit ((fun (_ : Fin 2) (_ _ _ _ : ℕ) => (0 : ℚ)) b t))
          (lengthsOf 4 mC3 b - 1))) := by
  have hm01 : ∀ (b : Fin 2) t, t < 4 → mC3 b t ≤ 1 := by
    intro b t _
    dsimp [mC3]
    split <;> omega
  have hlen : ∀ b : Fin 2, 1 ≤ lengthsOf 4 mC3 b := by decide
  have hsort : ∀ i j : Fin 2, i ≤ j →
      lengthsOf 4 mC3 (Equiv.swap 0 1 j) ≤ lengthsOf 4 mC3 (Equiv.swap 0 1 i) := by decide
  exact ⟨rfl, hm01, hlen, hsort,
    vt_recurrent_selects_last_valid vtC3 4 (fun _ _ _ _ _ => 0) (Equiv.swap 0 1)
      none mC3 rfl hm01 hlen hsort⟩

/-- C9: whenever the spatial stages succeed, VisionTransformerWithTemporal.forward
raises the explicit NaN error exactly when some post-norm spatial
encoder value is NaN, and otherwise proceeds to logits: any successful
temporal-encoder result t yields output head(t). -/
theorem vtwt_nan_guard (M : VTWT) (B S C H W : ℕ)
    (x : ℕ → ℕ → ℕ → ℕ → ℕ → EFlt) (im sm : Option (ℕ → ℕ → EFlt))
    (p xe : ℕ → ℕ → ℕ → EFlt)
    (hH : H = M.img_size)
    (hp : M.patch_embed (B * S) C H W (view5to4 S x) = .ok p)
    (hq : M.pos_encoder (B * S) M.tokLen M.embed_dim (M.withCls p) = .ok xe) :
    (anyNaN (B * S) M.tokLen M.embed_dim (M.norm_f (M.encoder xe)) = true →
      M.forward B S C H W x im sm = .error "NaN detected after Transformer encoder.") ∧
    (anyNaN (B * S) M.tokLen M.embed_dim (M.norm_f (M.encoder xe)) = false →
      ∀ t, M.temporal_encoder B S (M.featView S (M.norm_f (M.encoder xe))) sm = .ok t →
        M.forward B S C H W x im sm = .ok (M.head t)) := by
  subst hH
  constructor
  · intro hnan
    simp [VTWT.forward, hp, hq, hnan]
  · intro hnan t ht
    simp [VTWT.forward, hp, hq, hnan, ht]

/-- Concrete composite model whose patch embedding emits NaN and whose
remaining submodules are trivial. -/
def vtwtC9 : VTWT where
  img_size := 1
  embed_dim := 1
  num_patches := 1
  use_cls_token := true
  cls_token := fun _ => .val 0
  patch_embed := fun _ _ _ _ _ => .ok (fun _ _ _ => .nan)
  pos_encoder := fun _ _ _ t => .ok t
  encoder := fun t => t
  norm_f := fun t => t
  temporal_encoder := fun _ _ _ _ => .ok (fun _ _ => .val 0)
  head := fun t => t

/-- Witness for the C9 theorem: with a NaN-producing spatial stage the
forward call raises the explicit NaN error. -/
theorem vtwt_nan_guard_witness :
    (1 : ℕ) = vtwtC9.img_size ∧
    vtwtC9.patch_embed (1 * 1) 1 1 1 (view5to4 1 (fun _ _ _ _ _ => EFlt.nan)) =
      .ok (fun _ _ _ => EFlt.nan) ∧
    vtwtC9.pos_encoder (1 * 1) vtwtC9.tokLen vtwtC9.embed_dim
      (vtwtC9.withCls (fun _ _ _ => EFlt.nan)) =
      .ok (vtwtC9.withCls (fun _ _ _ => EFlt.nan)) ∧
    vtwtC9.forward 1 1 1 1 1 (fun _ _ _ _ _ => EFlt.nan) none none =
      .error "NaN detected after Transformer encoder." :=
  ⟨rfl, rfl, rfl,
    (vtwt_nan_guard vtwtC9 1 1 1 1 1 (fun _ _ _ _ _ => EFlt.nan) none none
      (fun _ _ _ => EFlt.nan) (vtwtC9.withCls (fun _ _ _ => EFlt.nan))
      rfl rfl rfl).1 (by decide)⟩
